import Mathlib

/-!
Shallow embedding of the threaded comment-and-vote store of the Godspeed
(Yoruba Cinemax) repository: the comment routes of `src/api/comments.ts`,
the rate limiter of `src/server.ts`, and the shared session validator of
`src/api/auth.ts`.

Conventions of the embedding:
* JavaScript runtime values reaching the validators are modelled by `JsVal`
  (null / undefined / boolean / number / string / object as an association
  list of fields).  Numbers are modelled by `Int` (epoch milliseconds).
* JavaScript objects used as dictionaries (`db.comments`, `db.upvotes`, the
  rate-limit `Map`) are modelled by association lists with unique-key update
  (`setKey`), matching object-property / `Map` semantics.
* `Date.now()` is passed in explicitly as a parameter `now : Int`.
* A comment's `date` field (an ISO timestamp string in the source, compared
  via `new Date(d).getTime()`) is modelled directly by its epoch-millisecond
  value, an order-isomorphic representation.
* Each Express handler is modelled as a pure function from its inputs (body
  fields, the persisted document, the users collection, the clock) to a
  result record carrying the HTTP status, the resulting document, and
  whether `writeCommentsDb` was invoked.
-/

/-- A JavaScript runtime value, as far as the session validators inspect it. -/
inductive JsVal where
  | null : JsVal
  | undefined : JsVal
  | bool : Bool → JsVal
  | num : Int → JsVal
  | str : String → JsVal
  | obj : List (String × JsVal) → JsVal
deriving Repr

/-- JavaScript truthiness of a value (`!v` is the negation of this). -/
def jsTruthy : JsVal → Bool
  | .null => false
  | .undefined => false
  | .bool b => b
  | .num n => n != 0
  | .str s => s != ""
  | .obj _ => true

/-- The JavaScript `typeof` operator on the modelled values. -/
def jsTypeof : JsVal → String
  | .null => "object"
  | .undefined => "undefined"
  | .bool _ => "boolean"
  | .num _ => "number"
  | .str _ => "string"
  | .obj _ => "object"

/-- Property access `v.k`: the field's value on an object, `undefined`
otherwise (the validators only dereference after a `typeof` guard). -/
def getField : JsVal → String → JsVal
  | .obj fs, k => ((fs.find? (fun e => e.1 == k)).map (fun e => e.2)).getD .undefined
  | _, _ => .undefined

/-- Numeric value of a `num`; only consulted after a `typeof x === "number"`
guard, `0` elsewhere. -/
def numVal : JsVal → Int
  | .num n => n
  | _ => 0

namespace Comments

/-- `validateSession` as defined locally in `src/api/comments.ts` (lines
23-45): structural checks on the session object, then strict expiry. -/
def validateSession (session : JsVal) (now : Int) : Bool :=
  if !(jsTruthy session) || jsTypeof session != "object" then
    false
  else if !(jsTruthy (getField session "user"))
      || jsTypeof (getField session "user") != "object"
      || jsTypeof (getField (getField session "user") "id") != "string"
      || !(jsTruthy (getField (getField session "user") "id")) then
    false
  else if jsTypeof (getField session "token") != "string"
      || !(jsTruthy (getField session "token")) then
    false
  else if jsTypeof (getField session "expires") != "number" then
    false
  else if numVal (getField session "expires") ≤ now then
    false
  else
    true

end Comments

namespace Auth

/-- `validateSession` as defined in the shared auth module
(`src/unnamed/part_000`, lines 27-49); same checks as the comments-local
copy, differing only in its log strings. -/
def validateSession (session : JsVal) (now : Int) : Bool :=
  if !(jsTruthy session) || jsTypeof session != "object" then
    false
  else if !(jsTruthy (getField session "user"))
      || jsTypeof (getField session "user") != "object"
      || jsTypeof (getField (getField session "user") "id") != "string"
      || !(jsTruthy (getField (getField session "user") "id")) then
    false
  else if jsTypeof (getField session "token") != "string"
      || !(jsTruthy (getField session "token")) then
    false
  else if jsTypeof (getField session "expires") != "number" then
    false
  else if numVal (getField session "expires") ≤ now then
    false
  else
    true

end Auth

/-- `session.user.id`, read after validation has established it is a
non-empty string. -/
def sessionUserId (session : JsVal) : String :=
  match getField (getField session "user") "id" with
  | .str s => s
  | _ => ""

/-- A stored comment (an element of `db.comments[movieId]`).  `date` is the
epoch-millisecond reading of the persisted ISO timestamp. -/
structure Comment where
  id : String
  parentId : Option String
  reviewer : String
  userId : String
  comment : String
  date : Int
  rating : Option Int
deriving Repr, DecidableEq

/-- A record of `users.json` as consulted by the comment routes. -/
structure User where
  id : String
  name : String
  role : String
deriving Repr, DecidableEq

/-- The persisted comments-and-upvotes document:
`{ comments: { [movieId]: Comment[] }, upvotes: { [commentId]: userId[] } }`. -/
structure Db where
  comments : List (String × List Comment)
  upvotes : List (String × List String)
deriving Repr, DecidableEq

/-- Dictionary lookup (`o[k]`, yielding `undefined` when absent). -/
def lookupKey (m : List (String × α)) (k : String) : Option α :=
  ((m.find? (fun e => e.1 == k)).map (fun e => e.2))

/-- Dictionary update (`o[k] = v` / `Map.set`): replace the binding if the
key is present, append it otherwise. -/
def setKey (m : List (String × α)) (k : String) (v : α) : List (String × α) :=
  if m.any (fun e => e.1 == k) then
    m.map (fun e => if e.1 == k then (k, v) else e)
  else
    m ++ [(k, v)]

/-- Dictionary key membership (`k in o` / `Map.has`). -/
def keyMem (m : List (String × α)) (k : String) : Bool :=
  m.any (fun e => e.1 == k)

/-- The payload `commentData` of a creation request.  A JavaScript-falsy
`parentId` (absent, `null`, or the empty string) is `none` / `some ""`. -/
structure CommentData where
  parentId : Option String
  comment : String
  rating : Option Int
deriving Repr, DecidableEq

/-- JavaScript truthiness of the optional `parentId` payload field. -/
def optTruthy : Option String → Bool
  | none => false
  | some s => s != ""

/-- `sanitize` of `src/api/comments.ts`: escape every `<` and `>`.  The two
sequential global replaces of the source commute into one character map
because `&lt;` contains no `>`. -/
def sanitize (s : String) : String :=
  String.join (s.toList.map (fun c =>
    if c = '<' then "&lt;" else if c = '>' then "&gt;" else String.singleton c))

/-- The comment object built by `router.post` (lines 89-97):
`id` is `comment_` + `Date.now()`, `parentId` is the payload's value or
`null` when falsy, and `rating` is dropped exactly when `parentId` is
truthy. -/
def mkNewComment (user : User) (cd : CommentData) (now : Int) : Comment :=
  { id := "comment_" ++ toString now
    parentId := if optTruthy cd.parentId then cd.parentId else none
    reviewer := user.name
    userId := user.id
    comment := sanitize cd.comment
    date := now
    rating := if optTruthy cd.parentId then none else cd.rating }

/-- Result of the POST handler. -/
structure PostResult where
  status : Nat
  db : Db
  wrote : Bool
  comment : Option Comment
deriving Repr, DecidableEq

/-- `router.post` of `src/api/comments.ts` (lines 81-104): validate the
session, re-resolve the user, append the new comment to the movie's list and
persist.  No rate-limit check appears in this handler (`checkRateLimit`
lives unexported in `src/server.ts` and is not consulted by any comment
route). -/
def postComment (db : Db) (users : List User) (movieId : String)
    (cd : CommentData) (session : JsVal) (now : Int) : PostResult :=
  if !(Comments.validateSession session now) then
    ⟨401, db, false, none⟩
  else
    match users.find? (fun u => u.id == sessionUserId session) with
    | none => ⟨404, db, false, none⟩
    | some user =>
      let newComment := mkNewComment user cd now
      let cur := (lookupKey db.comments movieId).getD []
      let db' : Db :=
        { db with comments := setKey db.comments movieId (cur ++ [newComment]) }
      ⟨201, db', true, some newComment⟩

/-- Result of the PUT (toggle upvote) handler. -/
structure PutResult where
  status : Nat
  db : Db
  wrote : Bool
  upvotes : Option (List String)
deriving Repr, DecidableEq

/-- The ledger transformation inlined in `router.put` (lines 113-123): read
the voter list for `commentId` (empty when absent), remove `userId` if
present, append it otherwise. -/
def toggleUpvote (upvotes : List (String × List String)) (commentId userId : String) :
    List String × List (String × List String) :=
  let upvoteUserIds := (lookupKey upvotes commentId).getD []
  let upvoteUserIds' :=
    if upvoteUserIds.contains userId then
      upvoteUserIds.filter (fun id => id != userId)
    else
      upvoteUserIds ++ [userId]
  (upvoteUserIds', setKey upvotes commentId upvoteUserIds')

/-- `router.put` of `src/api/comments.ts` (lines 113-123): validate the
session, toggle the caller's upvote on `commentId`, persist, and return the
resulting voter list.  The document's comment lists are never consulted. -/
def putToggle (db : Db) (commentId : String) (session : JsVal) (now : Int) : PutResult :=
  if !(Comments.validateSession session now) then
    ⟨401, db, false, none⟩
  else
    let r := toggleUpvote db.upvotes commentId (sessionUserId session)
    ⟨200, { db with upvotes := r.2 }, true, some r.1⟩

/-- The `forEach` body of the cascade-delete loop (line 144): add `c.id` to
the working set when `c.parentId` is truthy and already in the set
(`Set.add` modelled as append-if-absent, keeping the list duplicate-free). -/
def cascadeStep (acc : List String) (c : Comment) : List String :=
  match c.parentId with
  | some p =>
    if p != "" && acc.contains p && !(acc.contains c.id) then acc ++ [c.id] else acc
  | none => acc

/-- One `forEach` pass of the cascade-delete loop (lines 141-146) over the
movie's comment list. -/
def scanOnce (movieComments : List Comment) (s : List String) : List String :=
  movieComments.foldl cascadeStep s

/-- The `while (changed)` fixed-point loop of `router.delete`: rescan until
a pass adds nothing.  Fuel bounds the number of passes; `cascadeSet` supplies
enough fuel for the fixed point to be reached (proved below). -/
def closureLoop : Nat → List Comment → List String → List String
  | 0, _, s => s
  | fuel + 1, movieComments, s =>
    let s' := scanOnce movieComments s
    if s'.length = s.length then s else closureLoop fuel movieComments s'

/-- The working set `commentsToDelete` computed by `router.delete`
(lines 138-147), seeded with the requested `commentId`. -/
def cascadeSet (movieComments : List Comment) (commentId : String) : List String :=
  closureLoop (movieComments.length + 1) movieComments [commentId]

/-- Result of the DELETE handler. -/
structure DeleteResult where
  status : Nat
  db : Db
  wrote : Bool
deriving Repr, DecidableEq

/-- `router.delete` of `src/api/comments.ts` (lines 127-157): validate the
session, require an admin user (404-less: a missing user is also `403
Forbidden`), compute the cascade working set, drop those comments from the
movie's list and those keys from the upvote ledger, persist. -/
def deleteComment (db : Db) (users : List User) (movieId commentId : String)
    (session : JsVal) (now : Int) : DeleteResult :=
  if !(Comments.validateSession session now) then
    ⟨401, db, false⟩
  else
    match users.find? (fun u => u.id == sessionUserId session) with
    | none => ⟨403, db, false⟩
    | some user =>
      if user.role != "admin" then
        ⟨403, db, false⟩
      else
        let movieComments := (lookupKey db.comments movieId).getD []
        let commentsToDelete := cascadeSet movieComments commentId
        let db' : Db :=
          { comments := setKey db.comments movieId
              (movieComments.filter (fun c => !(commentsToDelete.contains c.id)))
            upvotes := db.upvotes.filter (fun e => !(commentsToDelete.contains e.1)) }
        ⟨200, db', true⟩

/-- `RATE_LIMIT_WINDOW_MS` of `src/server.ts`. -/
def RATE_LIMIT_WINDOW_MS : Int := 60 * 1000

/-- `MAX_REQUESTS_PER_WINDOW` of `src/server.ts`. -/
def MAX_REQUESTS_PER_WINDOW : Nat := 20

/-- `checkRateLimit` of `src/server.ts` (lines 25-33) acting on the
`userRequests` map: drop timestamps outside the trailing window, reject at
the ceiling, otherwise record `now` and admit.  Returns
(`limited`, updated map); the map is untouched on rejection. -/
def checkRateLimit (userRequests : List (String × List Int)) (userId : String)
    (now : Int) : Bool × List (String × List Int) :=
  let timestamps := (lookupKey userRequests userId).getD []
  let recentTimestamps := timestamps.filter (fun t => now - t < RATE_LIMIT_WINDOW_MS)
  if recentTimestamps.length ≥ MAX_REQUESTS_PER_WINDOW then
    (true, userRequests)
  else
    (false, setKey userRequests userId (recentTimestamps ++ [now]))

/-- A sequence of rate-limit checks for one user at the given times,
returning the verdicts in order (`true` = limited) and the final map. -/
def runRequests (userId : String) (times : List Int)
    (userRequests : List (String × List Int)) : List Bool × List (String × List Int) :=
  times.foldl (fun acc t =>
    let r := checkRateLimit acc.2 userId t
    (acc.1 ++ [r.1], r.2)) ([], userRequests)

/-- Pass 1 of `router.get` (lines 62-63): `commentMap`, each stored
comment's id bound to its (initially empty) reply list. -/
def buildMap (movieComments : List Comment) : List (String × List Comment) :=
  movieComments.foldl (fun m c => setKey m c.id []) []

/-- `commentMap.get(p).replies.push(c)` (line 68): append `c` to the reply
list bound to `p` in `commentMap`. -/
def appendReply (m : List (String × List Comment)) (p : String) (c : Comment) :
    List (String × List Comment) :=
  m.map (fun e => if e.1 == p then (e.1, e.2 ++ [c]) else e)

/-- The `forEach` body of pass 2 of `router.get` (lines 66-72): route a
comment into its parent's reply list (when its truthy `parentId` is a key of
`commentMap`) or into the root list. -/
def threadStep (st : List (String × List Comment) × List Comment) (c : Comment) :
    List (String × List Comment) × List Comment :=
  match c.parentId with
  | some p =>
    if p != "" && keyMem st.1 p then (appendReply st.1 p c, st.2)
    else (st.1, st.2 ++ [c])
  | none => (st.1, st.2 ++ [c])

/-- Pass 2 of `router.get` (lines 65-72).  Returns (`commentMap` with filled
reply lists, `rootComments` in encounter order). -/
def buildThread (movieComments : List Comment) :
    List (String × List Comment) × List Comment :=
  movieComments.foldl threadStep (buildMap movieComments, [])

/-- The root-comment ordering of `router.get` (line 79): `a` before `b`
when the comparator `new Date(b.date) - new Date(a.date)` is non-positive,
i.e. by `date` descending. -/
def rootOrder (a b : Comment) : Prop := b.date ≤ a.date

instance : DecidableRel rootOrder := fun a b => Int.decLe b.date a.date

/-- The root-comment sort of `router.get` (line 79): a stable sort by
`rootOrder` (ECMAScript `Array.prototype.sort` is stable, so any stable
sort models it for this total transitive comparator). -/
def sortRootsDesc (roots : List Comment) : List Comment :=
  roots.insertionSort rootOrder

/-- Result of the GET handler for a present `movieId`. -/
structure GetResult where
  status : Nat
  comments : List Comment
  replyLists : List (String × List Comment)
  upvotes : List (String × List String)
deriving Repr, DecidableEq

/-- `router.get` of `src/api/comments.ts` (lines 56-79) for a supplied
`movieId`: build the thread, sort the roots newest-first, and restrict the
upvote ledger to ids of this movie's comments.  The nested `replies` arrays
of the JSON response are represented by `replyLists` (JavaScript object
identity makes the nested tree and this adjacency map the same data). -/
def getComments (db : Db) (movieId : String) : GetResult :=
  let movieComments := (lookupKey db.comments movieId).getD []
  let built := buildThread movieComments
  let upvotesForMovie := db.upvotes.filter (fun e => keyMem built.1 e.1)
  ⟨200, sortRootsDesc built.2, built.1, upvotesForMovie⟩

/-- Scenario root comment A. -/
def cA : Comment := ⟨"A", none, "Alice", "u1", "root comment", 1, some 5⟩

/-- Scenario reply B (parent A). -/
def cB : Comment := ⟨"B", some "A", "Bob", "u2", "reply to A", 2, none⟩

/-- Scenario reply C (parent B). -/
def cC : Comment := ⟨"C", some "B", "Carol", "u3", "reply to B", 3, none⟩

/-- Scenario sibling reply B2 (parent A). -/
def cB2 : Comment := ⟨"B2", some "A", "Bert", "u4", "second reply to A", 4, none⟩

/-- Scenario root D, created after A. -/
def cD : Comment := ⟨"D", none, "Dana", "u5", "later root", 5, some 4⟩

/-- Document for the cascade-delete scenario: movie `m1` holds A, B, C, B2
and the ledger holds an entry for each of the four. -/
def cascadeDb : Db :=
  ⟨[("m1", [cA, cB, cC, cB2])],
   [("A", ["u2"]), ("B", ["u1"]), ("C", ["u1", "u2"]), ("B2", ["u3"])]⟩

/-- Document for the thread-builder scenario: movie `m2` holds A, B, C, D. -/
def threadDb : Db := ⟨[("m2", [cA, cB, cC, cD])], []⟩

/-- The administrator account of the scenarios. -/
def adminUser : User := ⟨"u1", "Alice", "admin"⟩

/-- A non-administrator account. -/
def viewerUser : User := ⟨"u2", "Bob", "user"⟩

/-- The users collection of the scenarios. -/
def scenarioUsers : List User := [adminUser, viewerUser]

/-- A structurally valid session for `u1`, unexpired at `now = 1000`. -/
def adminSession : JsVal :=
  .obj [("token", .str "tok1"), ("user", .obj [("id", .str "u1")]), ("expires", .num 2000)]

/-- A structurally valid session for `u2`, unexpired at `now = 1000`. -/
def viewerSession : JsVal :=
  .obj [("token", .str "tok2"), ("user", .obj [("id", .str "u2")]), ("expires", .num 2000)]

theorem lookupKey_cons_ne {α : Type} {e : String × α} {t : List (String × α)} {k : String}
    (he : (e.1 == k) = false) : lookupKey (e :: t) k = lookupKey t k := by
  simp [lookupKey, List.find?_cons, he]

theorem setKey_cons_ne {α : Type} {e : String × α} {t : List (String × α)} {k : String} {v : α}
    (he : (e.1 == k) = false) : setKey (e :: t) k v = e :: setKey t k v := by
  have hne : ¬ e.1 = k := by simpa using he
  cases ht : t.any (fun x => x.1 == k) with
  | true => simp [setKey, List.any_cons, he, ht, hne]
  | false => simp [setKey, List.any_cons, he, ht, hne]

theorem lookupKey_setKey_self {α : Type} (m : List (String × α)) (k : String) (v : α) :
    lookupKey (setKey m k v) k = some v := by
  induction m with
  | nil => simp [setKey, lookupKey]
  | cons e t ih =>
    by_cases he : (e.1 == k) = true
    · have hany : (e :: t).any (fun x => x.1 == k) = true := by
        simp [List.any_cons, he]
      have heq : e.1 = k := by simpa using he
      simp only [setKey, hany, if_true, List.map_cons, he, if_pos, heq]
      simp [lookupKey, List.find?_cons]
    · have he' : (e.1 == k) = false := by simpa using he
      rw [setKey_cons_ne he', lookupKey_cons_ne he']
      exact ih

/-- C10: the comments-local and the shared auth-module session validators
are extensionally equal: on every session value and clock they return the
same verdict (the two sources are textually identical up to log strings). -/
theorem c10_validators_agree (session : JsVal) (now : Int) :
    Comments.validateSession session now = Auth.validateSession session now := rfl

/-- C5: under a valid session whose user id does not resolve to a user with
the admin role (missing user, or role other than `admin`), the delete
operation returns 403 Forbidden, leaves the document unchanged, and performs
no write. -/
theorem c5_nonadmin_delete_forbidden (db : Db) (users : List User)
    (movieId commentId : String) (session : JsVal) (now : Int)
    (hvalid : Comments.validateSession session now = true)
    (hrole : ((users.find? (fun u => u.id == sessionUserId session)).map
        (fun u => u.role != "admin")).getD true = true) :
    deleteComment db users movieId commentId session now = ⟨403, db, false⟩ := by
  unfold deleteComment
  rw [hvalid]
  cases hfind : users.find? (fun u => u.id == sessionUserId session) with
  | none => simp
  | some u =>
    rw [hfind] at hrole
    simp only [Option.map_some', Option.getD_some] at hrole
    simp [hrole]

/-- Witness for C5: non-admin `u2` deleting in the concrete scenario gets
403 with the document untouched. -/
theorem c5_witness :
    deleteComment cascadeDb scenarioUsers "m1" "A" viewerSession 1000 = ⟨403, cascadeDb, false⟩ :=
  c5_nonadmin_delete_forbidden cascadeDb scenarioUsers "m1" "A" viewerSession 1000
    (by decide) (by decide)

/-- A rate-limiter state in which user `u2` already has 20 requests at the
current instant `0`. -/
def rlAtCeiling : List (String × List Int) := [("u2", List.replicate 20 0)]

/-- C4 counterexample: with user `u2` at the rate-limit ceiling
(`checkRateLimit` reports limited), the comment-creation operation is still
applied (201, write performed) — the comment routes never consult the rate
limiter. -/
theorem c4_counterexample :
    (checkRateLimit rlAtCeiling "u2" 0).1 = true ∧
    (postComment cascadeDb scenarioUsers "m1" ⟨none, "hello", some 4⟩ viewerSession 0).status = 201 ∧
    (postComment cascadeDb scenarioUsers "m1" ⟨none, "hello", some 4⟩ viewerSession 0).wrote = true :=
  ⟨by decide, by decide, by decide⟩

/-- C4 amended: the mutating comment operations are *not* admitted through
the rate limiter: whatever the limiter state — including one in which the
caller is at or above the ceiling — create, toggle-upvote and cascade delete
proceed and are applied. -/
theorem c4_amended (userRequests : List (String × List Int)) (db : Db) (users : List User)
    (movieId commentId : String) (cd : CommentData) (session : JsVal) (now : Int)
    (hvalid : Comments.validateSession session now = true)
    (hlimited : (checkRateLimit userRequests (sessionUserId session) now).1 = true) :
    ((users.find? (fun u => u.id == sessionUserId session)).isSome = true →
      (postComment db users movieId cd session now).status = 201 ∧
      (postComment db users movieId cd session now).wrote = true) ∧
    ((putToggle db commentId session now).status = 200 ∧
      (putToggle db commentId session now).wrote = true) ∧
    (∀ u, users.find? (fun u2 => u2.id == sessionUserId session) = some u → u.role = "admin" →
      (deleteComment db users movieId commentId session now).status = 200 ∧
      (deleteComment db users movieId commentId session now).wrote = true) := by
  refine ⟨?_, ?_, ?_⟩
  · intro hfind
    cases hf : users.find? (fun u => u.id == sessionUserId session) with
    | none => rw [hf] at hfind; simp at hfind
    | some u => simp [postComment, hvalid, hf]
  · simp [putToggle, hvalid]
  · intro u hf hrole
    have hrole' : (u.role != "admin") = false := by simp [hrole]
    simp [deleteComment, hvalid, hf, hrole']

/-- Witness for C4 (amended): with `u2` at the limiter ceiling, the toggle
operation still returns 200 and writes. -/
theorem c4_witness :
    (checkRateLimit rlAtCeiling "u2" 0).1 = true ∧
    (putToggle cascadeDb "A" viewerSession 0).status = 200 ∧
    (putToggle cascadeDb "A" viewerSession 0).wrote = true :=
  ⟨by decide,
   (c4_amended rlAtCeiling cascadeDb scenarioUsers "m1" "A" ⟨none, "x", none⟩ viewerSession 0
      (by decide) (by decide)).2.1⟩

/-- C7: one rate-limiter check first discards timestamps outside the
trailing 60-second window, rejects exactly when at least 20 remain (leaving
the map untouched), and otherwise records the current time; concretely, 21
requests at one instant see the 21st rejected, and a request a full window
later is admitted again. -/
theorem c7_rate_limiter (userRequests : List (String × List Int)) (userId : String)
    (now : Int) :
    ((checkRateLimit userRequests userId now).1 = true ↔
      MAX_REQUESTS_PER_WINDOW ≤
        (((lookupKey userRequests userId).getD []).filter
          (fun t => now - t < RATE_LIMIT_WINDOW_MS)).length) ∧
    ((checkRateLimit userRequests userId now).1 = false →
      lookupKey (checkRateLimit userRequests userId now).2 userId =
        some ((((lookupKey userRequests userId).getD []).filter
          (fun t => now - t < RATE_LIMIT_WINDOW_MS)) ++ [now])) ∧
    ((checkRateLimit userRequests userId now).1 = true →
      (checkRateLimit userRequests userId now).2 = userRequests) ∧
    (runRequests "u" (List.replicate 21 0 ++ [60000]) []).1 =
      List.replicate 20 false ++ [true, false] := by
  by_cases hc : MAX_REQUESTS_PER_WINDOW ≤
      (((lookupKey userRequests userId).getD []).filter
        (fun t => now - t < RATE_LIMIT_WINDOW_MS)).length
  · refine ⟨by simp [checkRateLimit, hc], ?_, by simp [checkRateLimit, hc], by decide⟩
    intro hfalse
    simp [checkRateLimit, hc] at hfalse
  · refine ⟨by simp [checkRateLimit, hc], ?_, ?_, by decide⟩
    · intro _
      simp only [checkRateLimit, hc, if_neg, ge_iff_le]
      exact lookupKey_setKey_self userRequests userId _
    · intro htrue
      simp [checkRateLimit, hc] at htrue

/-- Witness for C7: an unseen user's first check is admitted and records
the current timestamp. -/
theorem c7_witness :
    lookupKey (checkRateLimit [] "w" 5).2 "w" = some [5] :=
  (c7_rate_limiter [] "w" 5).2.1 (by decide)

/-- C8: a comment produced by the add-comment operation carries a rating
exactly when its stored `parentId` is null: replies never carry the
payload's rating, roots receive it. -/
theorem c8_rating_placement (db : Db) (users : List User) (movieId : String)
    (cd : CommentData) (session : JsVal) (now : Int) (c : Comment)
    (hc : (postComment db users movieId cd session now).comment = some c) :
    (c.parentId ≠ none → c.rating = none) ∧ (c.parentId = none → c.rating = cd.rating) := by
  unfold postComment at hc
  by_cases hv : Comments.validateSession session now
  · rw [hv] at hc
    simp only [Bool.not_true] at hc
    cases hf : users.find? (fun u => u.id == sessionUserId session) with
    | none => rw [hf] at hc; simp at hc
    | some u =>
      rw [hf] at hc
      simp only [Bool.false_eq_true, if_false, Option.some.injEq] at hc
      subst hc
      cases hp : optTruthy cd.parentId with
      | true =>
        have hne : cd.parentId ≠ none := by
          cases hcd : cd.parentId
          · rw [hcd] at hp; simp [optTruthy] at hp
          · simp
        constructor
        · intro _
          simp [mkNewComment, hp]
        · intro hno
          exact absurd (by simpa [mkNewComment, hp] using hno) hne
      | false => simp [mkNewComment, hp]
  · rw [Bool.not_eq_true] at hv
    rw [hv] at hc
    simp at hc

/-- Witness for C8: a reply payload carrying a rating yields a stored
comment with no rating. -/
theorem c8_witness :
    (mkNewComment viewerUser ⟨some "A", "hi", some 3⟩ 5).parentId ≠ none ∧
    (mkNewComment viewerUser ⟨some "A", "hi", some 3⟩ 5).rating = none :=
  ⟨by decide,
   (c8_rating_placement cascadeDb scenarioUsers "m1" ⟨some "A", "hi", some 3⟩ viewerSession 5
      (mkNewComment viewerUser ⟨some "A", "hi", some 3⟩ 5) (by decide)).1 (by decide)⟩

/-- C9 counterexample: two distinct invocations of comment creation in the
same millisecond (different users, different bodies) produce the same id,
and the document then holds two comments with duplicate ids. -/
theorem c9_counterexample :
    mkNewComment viewerUser ⟨none, "first", some 5⟩ 42 ≠
      mkNewComment adminUser ⟨none, "second", some 1⟩ 42 ∧
    (mkNewComment viewerUser ⟨none, "first", some 5⟩ 42).id =
      (mkNewComment adminUser ⟨none, "second", some 1⟩ 42).id ∧
    ((lookupKey (postComment
        (postComment ⟨[], []⟩ scenarioUsers "m1" ⟨none, "first", some 5⟩ viewerSession 42).db
        scenarioUsers "m1" ⟨none, "second", some 1⟩ adminSession 42).db.comments "m1").getD
      []).map (fun c => c.id) = ["comment_42", "comment_42"] :=
  ⟨by decide, by decide, by decide⟩

/-- C9 amended: the freshly generated id is a function of the creation
instant alone (`comment_` followed by the epoch milliseconds), so
invocations in the same millisecond receive identical ids; uniqueness holds
only across distinct creation timestamps. -/
theorem c9_amended (u1 u2 : User) (cd1 cd2 : CommentData) (now : Int) :
    (mkNewComment u1 cd1 now).id = (mkNewComment u2 cd2 now).id ∧
    (mkNewComment u1 cd1 now).id = "comment_" ++ toString now :=
  ⟨rfl, rfl⟩

theorem toggleUpvote_of_mem {upvotes : List (String × List String)} {commentId userId : String}
    (h : userId ∈ (lookupKey upvotes commentId).getD []) :
    toggleUpvote upvotes commentId userId =
      ((((lookupKey upvotes commentId).getD []).filter (fun id => id != userId)),
       setKey upvotes commentId
         (((lookupKey upvotes commentId).getD []).filter (fun id => id != userId))) := by
  simp [toggleUpvote, h]

theorem toggleUpvote_of_not_mem {upvotes : List (String × List String)} {commentId userId : String}
    (h : userId ∉ (lookupKey upvotes commentId).getD []) :
    toggleUpvote upvotes commentId userId =
      ((((lookupKey upvotes commentId).getD []) ++ [userId]),
       setKey upvotes commentId (((lookupKey upvotes commentId).getD []) ++ [userId])) := by
  simp [toggleUpvote, h]

/-- C2: the toggle-upvote operation removes the caller from the voter set
when present and appends them when absent, stores and returns that set;
toggling twice restores the original voter set, toggling once when absent
adds the caller exactly once, and the operation never consults the
document's comment lists (no existence check on `commentId`). -/
theorem c2_toggle_upvote (upvotes : List (String × List String)) (commentId userId : String) :
    (userId ∈ (lookupKey upvotes commentId).getD [] →
      ∀ x, x ∈ (toggleUpvote upvotes commentId userId).1 ↔
        (x ∈ (lookupKey upvotes commentId).getD [] ∧ x ≠ userId)) ∧
    (userId ∉ (lookupKey upvotes commentId).getD [] →
      (∀ x, x ∈ (toggleUpvote upvotes commentId userId).1 ↔
        (x ∈ (lookupKey upvotes commentId).getD [] ∨ x = userId)) ∧
      ((toggleUpvote upvotes commentId userId).1).count userId = 1) ∧
    lookupKey (toggleUpvote upvotes commentId userId).2 commentId =
      some (toggleUpvote upvotes commentId userId).1 ∧
    (∀ x, x ∈ (toggleUpvote (toggleUpvote upvotes commentId userId).2 commentId userId).1 ↔
      x ∈ (lookupKey upvotes commentId).getD []) ∧
    (∀ (comments1 comments2 : List (String × List Comment)) (session : JsVal) (now : Int),
      (putToggle ⟨comments1, upvotes⟩ commentId session now).upvotes =
        (putToggle ⟨comments2, upvotes⟩ commentId session now).upvotes ∧
      (putToggle ⟨comments1, upvotes⟩ commentId session now).db.upvotes =
        (putToggle ⟨comments2, upvotes⟩ commentId session now).db.upvotes) := by
  by_cases hmem : userId ∈ (lookupKey upvotes commentId).getD []
  · rw [toggleUpvote_of_mem hmem]
    refine ⟨?_, fun h => absurd hmem h, ?_, ?_, ?_⟩
    · intro _ x
      simp [List.mem_filter]
    · exact lookupKey_setKey_self upvotes commentId _
    · intro x
      have hlk : lookupKey (setKey upvotes commentId
          (((lookupKey upvotes commentId).getD []).filter (fun id => id != userId))) commentId =
          some (((lookupKey upvotes commentId).getD []).filter (fun id => id != userId)) :=
        lookupKey_setKey_self upvotes commentId _
      rw [toggleUpvote_of_not_mem (by rw [hlk]; simp [List.mem_filter])]
      simp only [hlk, Option.getD_some]
      simp only [List.mem_append, List.mem_filter, List.mem_singleton]
      constructor
      · rintro (⟨hx, _⟩ | hx)
        · exact hx
        · rw [hx]; exact hmem
      · intro hx
        by_cases hxu : x = userId
        · right; exact hxu
        · left; exact ⟨hx, by simpa using hxu⟩
    · intro comments1 comments2 session now
      by_cases hv : Comments.validateSession session now <;> simp [putToggle, hv]
  · rw [toggleUpvote_of_not_mem hmem]
    refine ⟨fun h => absurd h hmem, ?_, ?_, ?_, ?_⟩
    · intro _
      constructor
      · intro x
        simp [List.mem_append]
      · rw [List.count_append, List.count_singleton]
        have : (((lookupKey upvotes commentId).getD []).count userId) = 0 :=
          List.count_eq_zero.mpr hmem
        simp [this]
    · exact lookupKey_setKey_self upvotes commentId _
    · intro x
      have hlk : lookupKey (setKey upvotes commentId
          (((lookupKey upvotes commentId).getD []) ++ [userId])) commentId =
          some (((lookupKey upvotes commentId).getD []) ++ [userId]) :=
        lookupKey_setKey_self upvotes commentId _
      rw [toggleUpvote_of_mem (by rw [hlk]; simp [List.mem_append])]
      simp only [hlk, Option.getD_some]
      rw [List.filter_append]
      simp only [List.mem_append, List.mem_filter]
      constructor
      · rintro (⟨hx, _⟩ | hx)
        · exact hx
        · simp at hx
      · intro hx
        left
        refine ⟨hx, ?_⟩
        have : x ≠ userId := fun hxe => hmem (hxe ▸ hx)
        simpa using this
    · intro comments1 comments2 session now
      by_cases hv : Comments.validateSession session now <;> simp [putToggle, hv]

/-- Witness for C2: toggling `u2` off comment A empties its voter set. -/
theorem c2_witness :
    "u2" ∈ (lookupKey cascadeDb.upvotes "A").getD [] ∧
    ((toggleUpvote cascadeDb.upvotes "A" "u2").1 = [] ∧
      ("u2" ∈ (toggleUpvote cascadeDb.upvotes "A" "u2").1 ↔
        ("u2" ∈ (lookupKey cascadeDb.upvotes "A").getD [] ∧ "u2" ≠ "u2"))) :=
  ⟨by decide,
   by decide,
   (c2_toggle_upvote cascadeDb.upvotes "A" "u2").1 (by decide) "u2"⟩

/-- C6: the session validator accepts exactly the non-null objects carrying
a non-empty string token, a user object with a non-empty string id, and a
numeric `expires` strictly greater than the current time; in particular an
`expires` at or before the current time is rejected regardless of
structure. -/
theorem c6_session_validation (session : JsVal) (now : Int) :
    (Comments.validateSession session now = true ↔
      ((∃ fs, session = JsVal.obj fs) ∧
       (∃ ufs, getField session "user" = JsVal.obj ufs) ∧
       (∃ uid, getField (getField session "user") "id" = JsVal.str uid ∧ uid ≠ "") ∧
       (∃ tok, getField session "token" = JsVal.str tok ∧ tok ≠ "") ∧
       (∃ e : Int, getField session "expires" = JsVal.num e ∧ now < e))) ∧
    (∀ e : Int, getField session "expires" = JsVal.num e → e ≤ now →
      Comments.validateSession session now = false) := by
  have hchar : Comments.validateSession session now = true ↔
      ((∃ fs, session = JsVal.obj fs) ∧
       (∃ ufs, getField session "user" = JsVal.obj ufs) ∧
       (∃ uid, getField (getField session "user") "id" = JsVal.str uid ∧ uid ≠ "") ∧
       (∃ tok, getField session "token" = JsVal.str tok ∧ tok ≠ "") ∧
       (∃ e : Int, getField session "expires" = JsVal.num e ∧ now < e)) := by
    cases session with
    | null => simp [Comments.validateSession, jsTruthy, jsTypeof]
    | undefined => simp [Comments.validateSession, jsTruthy, jsTypeof]
    | bool b => simp [Comments.validateSession, jsTruthy, jsTypeof]
    | num n => simp [Comments.validateSession, jsTruthy, jsTypeof]
    | str s => simp [Comments.validateSession, jsTruthy, jsTypeof]
    | obj fs =>
      cases hu : getField (JsVal.obj fs) "user" with
      | obj ufs =>
        cases huid : getField (JsVal.obj ufs) "id" with
        | str uid =>
          cases htok : getField (JsVal.obj fs) "token" with
          | str tok =>
            cases hexp : getField (JsVal.obj fs) "expires" with
            | num e =>
              by_cases hle : e ≤ now
              · simp [Comments.validateSession, jsTruthy, jsTypeof, hu, huid, htok, hexp,
                  numVal, hle, not_lt.mpr hle]
              · by_cases huid0 : uid = ""
                · simp [Comments.validateSession, jsTruthy, jsTypeof, hu, huid, htok, hexp,
                    numVal, huid0]
                · by_cases htok0 : tok = ""
                  · simp [Comments.validateSession, jsTruthy, jsTypeof, hu, huid, htok, hexp,
                      numVal, huid0, htok0]
                  · simp [Comments.validateSession, jsTruthy, jsTypeof, hu, huid, htok, hexp,
                      numVal, huid0, htok0, hle, lt_of_not_le hle]
            | null => simp [Comments.validateSession, jsTruthy, jsTypeof, hu, huid, htok, hexp]
            | undefined => simp [Comments.validateSession, jsTruthy, jsTypeof, hu, huid, htok, hexp]
            | bool b2 => simp [Comments.validateSession, jsTruthy, jsTypeof, hu, huid, htok, hexp]
            | str s2 => simp [Comments.validateSession, jsTruthy, jsTypeof, hu, huid, htok, hexp]
            | obj fs2 => simp [Comments.validateSession, jsTruthy, jsTypeof, hu, huid, htok, hexp]
          | null => simp [Comments.validateSession, jsTruthy, jsTypeof, hu, huid, htok]
          | undefined => simp [Comments.validateSession, jsTruthy, jsTypeof, hu, huid, htok]
          | bool b2 => simp [Comments.validateSession, jsTruthy, jsTypeof, hu, huid, htok]
          | num n2 => simp [Comments.validateSession, jsTruthy, jsTypeof, hu, huid, htok]
          | obj fs2 => simp [Comments.validateSession, jsTruthy, jsTypeof, hu, huid, htok]
        | null => simp [Comments.validateSession, jsTruthy, jsTypeof, hu, huid]
        | undefined => simp [Comments.validateSession, jsTruthy, jsTypeof, hu, huid]
        | bool b2 => simp [Comments.validateSession, jsTruthy, jsTypeof, hu, huid]
        | num n2 => simp [Comments.validateSession, jsTruthy, jsTypeof, hu, huid]
        | obj fs2 => simp [Comments.validateSession, jsTruthy, jsTypeof, hu, huid]
      | null => simp [Comments.validateSession, jsTruthy, jsTypeof, hu]
      | undefined => simp [Comments.validateSession, jsTruthy, jsTypeof, hu]
      | bool b2 => simp [Comments.validateSession, jsTruthy, jsTypeof, hu]
      | num n2 => simp [Comments.validateSession, jsTruthy, jsTypeof, hu]
      | str s2 => simp [Comments.validateSession, jsTruthy, jsTypeof, hu]
  refine ⟨hchar, ?_⟩
  intro e he hle
  cases hval : Comments.validateSession session now with
  | false => rfl
  | true =>
    obtain ⟨-, -, -, -, e2, he2, hlt⟩ := hchar.mp hval
    rw [he] at he2
    cases he2
    exact absurd hlt (not_lt.mpr hle)

/-- Spec-side description of the cascade working set (claim wording): the
least set containing the requested id and closed under "some listed
comment's `parentId` is already in the set". -/
inductive InCascade (movieComments : List Comment) (root : String) : String → Prop where
  | base : InCascade movieComments root root
  | step (c : Comment) (p : String) (hc : c ∈ movieComments)
      (hp : c.parentId = some p) (hrec : InCascade movieComments root p) :
      InCascade movieComments root c.id

theorem cascadeStep_none {acc : List String} {c : Comment} (hp : c.parentId = none) :
    cascadeStep acc c = acc := by
  unfold cascadeStep
  rw [hp]

theorem cascadeStep_some {acc : List String} {c : Comment} {p : String}
    (hp : c.parentId = some p) :
    cascadeStep acc c =
      if p != "" && acc.contains p && !(acc.contains c.id) then acc ++ [c.id] else acc := by
  unfold cascadeStep
  rw [hp]

theorem cascadeStep_eq_or (acc : List String) (c : Comment) :
    cascadeStep acc c = acc ∨
    (cascadeStep acc c = acc ++ [c.id] ∧ c.id ∉ acc ∧
      ∃ p, c.parentId = some p ∧ p ≠ "" ∧ p ∈ acc) := by
  cases hp : c.parentId with
  | none => exact Or.inl (cascadeStep_none hp)
  | some p =>
    rw [cascadeStep_some hp]
    by_cases hcond : (p != "" && acc.contains p && !(acc.contains c.id)) = true
    · right
      refine ⟨by rw [if_pos hcond], ?_, p, rfl, ?_, ?_⟩
      · have h3 := (Bool.and_eq_true _ _ |>.mp hcond).2
        simp only [Bool.not_eq_true'] at h3
        simpa [List.contains, List.elem_iff] using h3
      · have h1 := ((Bool.and_eq_true _ _ |>.mp (Bool.and_eq_true _ _ |>.mp hcond).1).1)
        simpa using h1
      · have h2 := ((Bool.and_eq_true _ _ |>.mp (Bool.and_eq_true _ _ |>.mp hcond).1).2)
        simpa [List.contains, List.elem_iff] using h2
    · exact Or.inl (by rw [if_neg hcond])

theorem foldl_cascadeStep_spec (l : List Comment) :
    ∀ s : List String, ∃ t, List.foldl cascadeStep s l = s ++ t ∧
      ∀ x ∈ t, x ∉ s ∧ ∃ c, c ∈ l ∧ x = c.id := by
  induction l with
  | nil => exact fun s => ⟨[], by simp, by simp⟩
  | cons c l ih =>
    intro s
    rcases cascadeStep_eq_or s c with h | ⟨h, hnotin, p, hp, hpne, hpin⟩
    · obtain ⟨t, ht, hprop⟩ := ih s
      rw [List.foldl_cons, h]
      refine ⟨t, ht, fun x hx => ⟨(hprop x hx).1, ?_⟩⟩
      obtain ⟨c', hc', hxc⟩ := (hprop x hx).2
      exact ⟨c', List.mem_cons_of_mem _ hc', hxc⟩
    · obtain ⟨t, ht, hprop⟩ := ih (s ++ [c.id])
      rw [List.foldl_cons, h]
      refine ⟨c.id :: t, by rw [ht, List.append_assoc]; rfl, ?_⟩
      intro x hx
      rcases List.mem_cons.mp hx with rfl | hx'
      · exact ⟨hnotin, c, List.mem_cons_self c l, rfl⟩
      · have hp2 := hprop x hx'
        refine ⟨fun hxs => hp2.1 (List.mem_append_left _ hxs), ?_⟩
        obtain ⟨c', hc', hxc⟩ := hp2.2
        exact ⟨c', List.mem_cons_of_mem _ hc', hxc⟩

theorem mem_scanOnce_of_mem {l : List Comment} {s : List String} {x : String} (hx : x ∈ s) :
    x ∈ scanOnce l s := by
  obtain ⟨t, ht, -⟩ := foldl_cascadeStep_spec l s
  rw [scanOnce, ht]
  exact List.mem_append_left _ hx

theorem mem_cascadeStep_of_mem {s : List String} {c : Comment} {x : String} (hx : x ∈ s) :
    x ∈ cascadeStep s c := by
  rcases cascadeStep_eq_or s c with h | ⟨h, -, -⟩ <;> rw [h]
  · exact hx
  · exact List.mem_append_left _ hx

theorem mem_scanOnce_of_parent :
    ∀ (l : List Comment) (s : List String) (c : Comment) (p : String),
      c ∈ l → c.parentId = some p → p ≠ "" → p ∈ s → c.id ∈ scanOnce l s := by
  intro l
  induction l with
  | nil => intro s c p hc; exact absurd hc (by simp)
  | cons c0 l ih =>
    intro s c p hc hp hpne hps
    rcases List.mem_cons.mp hc with rfl | hc'
    · have hstep : c.id ∈ cascadeStep s c := by
        by_cases hcid : c.id ∈ s
        · exact mem_cascadeStep_of_mem hcid
        · have hcond : (p != "" && s.contains p && !(s.contains c.id)) = true := by
            simp [bne_iff_ne, hpne, List.contains, List.elem_iff, hps, hcid]
          rw [cascadeStep_some hp, if_pos hcond]
          exact List.mem_append_right _ (List.mem_singleton.mpr rfl)
      show c.id ∈ List.foldl cascadeStep (cascadeStep s c) l
      obtain ⟨t, ht, -⟩ := foldl_cascadeStep_spec l (cascadeStep s c)
      rw [ht]
      exact List.mem_append_left _ hstep
    · have hps' : p ∈ cascadeStep s c0 := mem_cascadeStep_of_mem hps
      exact ih (cascadeStep s c0) c p hc' hp hpne hps'

theorem foldl_cascadeStep_sound (full : List Comment) (root : String) :
    ∀ (l : List Comment) (s : List String), (∀ c, c ∈ l → c ∈ full) →
      (∀ x, x ∈ s → InCascade full root x) →
      ∀ x, x ∈ List.foldl cascadeStep s l → InCascade full root x := by
  intro l
  induction l with
  | nil => intro s _ hs x hx; exact hs x hx
  | cons c0 l ih =>
    intro s hsub hs x hx
    rw [List.foldl_cons] at hx
    refine ih (cascadeStep s c0) (fun c hc => hsub c (List.mem_cons_of_mem _ hc)) ?_ x hx
    rcases cascadeStep_eq_or s c0 with h | ⟨h, hni, p, hp, hpne, hpin⟩
    · rw [h]; exact hs
    · rw [h]
      intro y hy
      rcases List.mem_append.mp hy with hy' | hy'
      · exact hs y hy'
      · rw [List.mem_singleton.mp hy']
        exact InCascade.step c0 p (hsub c0 (List.mem_cons_self c0 l)) hp (hs p hpin)

theorem length_filter_le_filter (l : List α) (p q : α → Bool)
    (himp : ∀ a, p a = true → q a = true) :
    (l.filter p).length ≤ (l.filter q).length := by
  induction l with
  | nil => simp
  | cons a l ih =>
    cases hpa : p a with
    | true =>
      have hqa : q a = true := himp a hpa
      simp [List.filter_cons, hpa, hqa, Nat.succ_le_succ ih]
    | false =>
      cases hqa : q a with
      | true =>
        simp only [List.filter_cons, hpa, hqa, if_true, if_false, List.length_cons]
        exact Nat.le_succ_of_le ih
      | false => simpa [List.filter_cons, hpa, hqa] using ih

theorem length_filter_lt_filter (l : List α) (p q : α → Bool)
    (himp : ∀ a, p a = true → q a = true) (a0 : α) (ha0 : a0 ∈ l)
    (hq : q a0 = true) (hp : p a0 = false) :
    (l.filter p).length < (l.filter q).length := by
  induction l with
  | nil => exact absurd ha0 (by simp)
  | cons a l ih =>
    rcases List.mem_cons.mp ha0 with rfl | ha0'
    · simp only [List.filter_cons, hp, hq, if_true, if_false, List.length_cons]
      exact Nat.lt_succ_of_le (length_filter_le_filter l p q himp)
    · cases hpa : p a with
      | true =>
        have hqa : q a = true := himp a hpa
        simpa [List.filter_cons, hpa, hqa] using ih ha0'
      | false =>
        cases hqa : q a with
        | true =>
          simp only [List.filter_cons, hpa, hqa, if_true, if_false, List.length_cons]
          exact Nat.lt_succ_of_lt (ih ha0')
        | false => simpa [List.filter_cons, hpa, hqa] using ih ha0'

/-- The number of listed comments whose id is not yet in the working set:
the variant of the cascade fixed-point loop. -/
def cascadeMissing (l : List Comment) (s : List String) : Nat :=
  (l.filter (fun c => !(s.contains c.id))).length

theorem scanOnce_eq_of_length {l : List Comment} {s : List String}
    (h : (scanOnce l s).length = s.length) : scanOnce l s = s := by
  obtain ⟨t, ht, -⟩ := foldl_cascadeStep_spec l s
  rw [scanOnce] at *
  rw [ht] at h ⊢
  have : t.length = 0 := by
    rw [List.length_append] at h
    omega
  rw [List.length_eq_zero.mp this, List.append_nil]

theorem closureLoop_fixed (fuel : Nat) :
    ∀ (l : List Comment) (s : List String), cascadeMissing l s < fuel →
      scanOnce l (closureLoop fuel l s) = closureLoop fuel l s := by
  induction fuel with
  | zero => intro l s h; exact absurd h (Nat.not_lt_zero _)
  | succ fuel ih =>
    intro l s h
    by_cases heq : (scanOnce l s).length = s.length
    · have hfix := scanOnce_eq_of_length heq
      show scanOnce l (if (scanOnce l s).length = s.length then s
          else closureLoop fuel l (scanOnce l s)) =
        (if (scanOnce l s).length = s.length then s else closureLoop fuel l (scanOnce l s))
      rw [if_pos heq]
      exact hfix
    · show scanOnce l (if (scanOnce l s).length = s.length then s
          else closureLoop fuel l (scanOnce l s)) =
        (if (scanOnce l s).length = s.length then s else closureLoop fuel l (scanOnce l s))
      rw [if_neg heq]
      refine ih l (scanOnce l s) ?_
      obtain ⟨t, ht, hprop⟩ := foldl_cascadeStep_spec l s
      have htne : t ≠ [] := by
        intro h0
        rw [scanOnce, ht, h0, List.append_nil] at heq
        exact heq rfl
      obtain ⟨x, hx⟩ := List.exists_mem_of_ne_nil t htne
      obtain ⟨hxs, c0, hc0, hxc0⟩ := hprop x hx
      have hximg : x ∈ scanOnce l s := by
        rw [scanOnce, ht]
        exact List.mem_append_right _ hx
      have hlt : cascadeMissing l (scanOnce l s) < cascadeMissing l s := by
        refine length_filter_lt_filter l _ _ ?_ c0 hc0 ?_ ?_
        · intro a ha
          by_cases hmem : a.id ∈ s
          · exfalso
            have h1 : a.id ∈ scanOnce l s := mem_scanOnce_of_mem hmem
            simp [List.contains, List.elem_iff, h1] at ha
          · simp [List.contains, List.elem_iff, hmem]
        · rw [← hxc0]
          simp [List.contains, List.elem_iff, hxs]
        · rw [← hxc0]
          simp [List.contains, List.elem_iff, hximg]
      have hle : cascadeMissing l s ≤ fuel := Nat.lt_succ_iff.mp h
      omega

theorem mem_closureLoop_of_mem (fuel : Nat) :
    ∀ (l : List Comment) (s : List String) (x : String), x ∈ s →
      x ∈ closureLoop fuel l s := by
  induction fuel with
  | zero => intro l s x hx; exact hx
  | succ fuel ih =>
    intro l s x hx
    show x ∈ (if (scanOnce l s).length = s.length then s else closureLoop fuel l (scanOnce l s))
    by_cases heq : (scanOnce l s).length = s.length
    · rw [if_pos heq]; exact hx
    · rw [if_neg heq]
      exact ih l (scanOnce l s) x (mem_scanOnce_of_mem hx)

theorem closureLoop_sound (full : List Comment) (root : String) (fuel : Nat) :
    ∀ (l : List Comment) (s : List String), (∀ c, c ∈ l → c ∈ full) →
      (∀ x, x ∈ s → InCascade full root x) →
      ∀ x, x ∈ closureLoop fuel l s → InCascade full root x := by
  induction fuel with
  | zero => intro l s _ hs x hx; exact hs x hx
  | succ fuel ih =>
    intro l s hsub hs x hx
    rw [show closureLoop (fuel + 1) l s =
        (if (scanOnce l s).length = s.length then s else closureLoop fuel l (scanOnce l s))
      from rfl] at hx
    by_cases heq : (scanOnce l s).length = s.length
    · rw [if_pos heq] at hx; exact hs x hx
    · rw [if_neg heq] at hx
      exact ih l (scanOnce l s) hsub
        (fun y hy => foldl_cascadeStep_sound full root l s hsub hs y hy) x hx

theorem root_mem_cascadeSet (l : List Comment) (root : String) :
    root ∈ cascadeSet l root :=
  mem_closureLoop_of_mem _ l [root] root (List.mem_singleton.mpr rfl)

theorem cascadeSet_sound (l : List Comment) (root : String) :
    ∀ x, x ∈ cascadeSet l root → InCascade l root x := by
  intro x hx
  refine closureLoop_sound l root (l.length + 1) l [root] (fun c hc => hc) ?_ x hx
  intro y hy
  rw [List.mem_singleton.mp hy]
  exact InCascade.base

theorem scanOnce_cascadeSet_fixed (l : List Comment) (root : String) :
    scanOnce l (cascadeSet l root) = cascadeSet l root := by
  refine closureLoop_fixed (l.length + 1) l [root] ?_
  have := List.length_filter_le (fun c => !(([root] : List String).contains c.id)) l
  exact Nat.lt_succ_of_le this

theorem cascadeSet_closed (l : List Comment) (root : String) (c : Comment) (p : String)
    (hc : c ∈ l) (hp : c.parentId = some p) (hpne : p ≠ "")
    (hpin : p ∈ cascadeSet l root) : c.id ∈ cascadeSet l root := by
  have := mem_scanOnce_of_parent l (cascadeSet l root) c p hc hp hpne hpin
  rwa [scanOnce_cascadeSet_fixed] at this

theorem mem_cascadeSet_of_inCascade (l : List Comment) (root : String)
    (hWF : ∀ c, c ∈ l → c.parentId ≠ some "") :
    ∀ x, InCascade l root x → x ∈ cascadeSet l root := by
  intro x h
  induction h with
  | base => exact root_mem_cascadeSet l root
  | step c p hc hp _ ih =>
    have hpne : p ≠ "" := by
      intro h0
      rw [h0] at hp
      exact hWF c hc hp
    exact cascadeSet_closed l root c p hc hp hpne ih

/-- C1: the admin cascade delete removes from the movie's list exactly the
comments whose id lies in the least set containing `commentId` and closed
under replies (`InCascade`), removes exactly the ledger entries keyed in
that set, and in the concrete A→B→C plus B2 scenario with four ledger
entries it empties both. -/
theorem c1_cascade_delete (db : Db) (users : List User) (movieId commentId : String)
    (session : JsVal) (now : Int)
    (hvalid : Comments.validateSession session now = true)
    (hadmin : ∃ u, users.find? (fun u2 => u2.id == sessionUserId session) = some u ∧
      u.role = "admin")
    (hWF : ∀ c, c ∈ (lookupKey db.comments movieId).getD [] → c.parentId ≠ some "") :
    (∀ x, x ∈ cascadeSet ((lookupKey db.comments movieId).getD []) commentId ↔
      InCascade ((lookupKey db.comments movieId).getD []) commentId x) ∧
    (deleteComment db users movieId commentId session now).status = 200 ∧
    (deleteComment db users movieId commentId session now).wrote = true ∧
    lookupKey (deleteComment db users movieId commentId session now).db.comments movieId =
      some (((lookupKey db.comments movieId).getD []).filter
        (fun c => !((cascadeSet ((lookupKey db.comments movieId).getD [])
          commentId).contains c.id))) ∧
    (deleteComment db users movieId commentId session now).db.upvotes =
      db.upvotes.filter
        (fun e => !((cascadeSet ((lookupKey db.comments movieId).getD [])
          commentId).contains e.1)) ∧
    lookupKey (deleteComment cascadeDb scenarioUsers "m1" "A" adminSession 1000).db.comments
      "m1" = some [] ∧
    (deleteComment cascadeDb scenarioUsers "m1" "A" adminSession 1000).db.upvotes = [] := by
  obtain ⟨u, hfind, hrole⟩ := hadmin
  have hdel : deleteComment db users movieId commentId session now =
      ⟨200,
       ⟨setKey db.comments movieId (((lookupKey db.comments movieId).getD []).filter
          (fun c => !((cascadeSet ((lookupKey db.comments movieId).getD [])
            commentId).contains c.id))),
        db.upvotes.filter
          (fun e => !((cascadeSet ((lookupKey db.comments movieId).getD [])
            commentId).contains e.1))⟩,
       true⟩ := by
    unfold deleteComment
    rw [hvalid]
    simp only [Bool.not_true, Bool.false_eq_true, if_false]
    rw [hfind]
    have hrole' : (u.role != "admin") = false := by simp [hrole]
    simp [hrole']
  refine ⟨?_, ?_, ?_, ?_, ?_, by decide, by decide⟩
  · intro x
    exact ⟨cascadeSet_sound _ _ x, mem_cascadeSet_of_inCascade _ _ hWF x⟩
  · rw [hdel]
  · rw [hdel]
  · rw [hdel]
    exact lookupKey_setKey_self _ _ _
  · rw [hdel]

/-- Witness for C1: deleting A in the concrete scenario empties the movie
list and the ledger. -/
theorem c1_witness :
    (deleteComment cascadeDb scenarioUsers "m1" "A" adminSession 1000).status = 200 ∧
    lookupKey (deleteComment cascadeDb scenarioUsers "m1" "A" adminSession 1000).db.comments
      "m1" = some [] ∧
    (deleteComment cascadeDb scenarioUsers "m1" "A" adminSession 1000).db.upvotes = [] := by
  have h := c1_cascade_delete cascadeDb scenarioUsers "m1" "A" adminSession 1000 (by decide)
    ⟨adminUser, by decide, by decide⟩ (by decide)
  exact ⟨h.2.1, h.2.2.2.2.2.1, h.2.2.2.2.2.2⟩

theorem keyMem_appendReply (m : List (String × List Comment)) (p : String) (c : Comment)
    (q : String) : keyMem (appendReply m p c) q = keyMem m q := by
  induction m with
  | nil => rfl
  | cons e t ih =>
    simp only [appendReply, List.map_cons, keyMem, List.any_cons] at ih ⊢
    by_cases he : (e.1 == p) = true
    · rw [if_pos he]
      rw [show ((e.1, e.2 ++ [c]).1 == q) = (e.1 == q) from rfl, ih]
    · rw [if_neg he, ih]

theorem lookupKey_appendReply_self (m : List (String × List Comment)) (p : String)
    (c : Comment) (v : List Comment) (hv : lookupKey m p = some v) :
    lookupKey (appendReply m p c) p = some (v ++ [c]) := by
  induction m with
  | nil => simp [lookupKey] at hv
  | cons e t ih =>
    by_cases he : (e.1 == p) = true
    · have hv' : e.2 = v := by
        simp only [lookupKey, List.find?_cons, he] at hv
        exact Option.some.inj hv
      simp only [appendReply, List.map_cons, if_pos he, lookupKey, List.find?_cons, he]
      rw [hv']
      simp [he]
    · have he' : (e.1 == p) = false := by simpa using he
      simp only [lookupKey, List.find?_cons, he'] at hv
      simp only [appendReply, List.map_cons, if_neg he]
      rw [show lookupKey ((e :: List.map (fun e => if e.1 == p then (e.1, e.2 ++ [c]) else e) t))
          p = lookupKey (List.map (fun e => if e.1 == p then (e.1, e.2 ++ [c]) else e) t) p
        from lookupKey_cons_ne he']
      exact ih hv

theorem lookupKey_appendReply_ne (m : List (String × List Comment)) (p : String)
    (c : Comment) (q : String) (hqp : q ≠ p) :
    lookupKey (appendReply m p c) q = lookupKey m q := by
  induction m with
  | nil => rfl
  | cons e t ih =>
    by_cases he : (e.1 == q) = true
    · have hep : (e.1 == p) = false := by
        have : e.1 = q := by simpa using he
        simp [this, hqp]
      simp only [appendReply, List.map_cons, if_neg (by simp [hep] : ¬ (e.1 == p) = true)]
      simp [lookupKey, List.find?_cons, he]
    · have he' : (e.1 == q) = false := by simpa using he
      simp only [appendReply, List.map_cons]
      by_cases hep : (e.1 == p) = true
      · rw [if_pos hep]
        rw [show lookupKey (((e.1, e.2 ++ [c])) ::
            List.map (fun e => if e.1 == p then (e.1, e.2 ++ [c]) else e) t) q =
            lookupKey (List.map (fun e => if e.1 == p then (e.1, e.2 ++ [c]) else e) t) q
          from lookupKey_cons_ne he']
        rw [lookupKey_cons_ne he']
        exact ih
      · rw [if_neg hep]
        rw [lookupKey_cons_ne he', lookupKey_cons_ne he']
        exact ih

theorem mem_setKey {α : Type} {m : List (String × α)} {k : String} {v : α}
    {e : String × α} (he : e ∈ setKey m k v) : e ∈ m ∨ e = (k, v) := by
  unfold setKey at he
  by_cases hany : (m.any (fun e => e.1 == k)) = true
  · rw [if_pos hany] at he
    obtain ⟨e', he', hfe⟩ := List.mem_map.mp he
    by_cases hek : (e'.1 == k) = true
    · rw [if_pos hek] at hfe
      exact Or.inr hfe.symm
    · rw [if_neg hek] at hfe
      exact Or.inl (hfe ▸ he')
  · rw [if_neg hany] at he
    rcases List.mem_append.mp he with h | h
    · exact Or.inl h
    · exact Or.inr (List.mem_singleton.mp h)

theorem fst_mem_setKey {α : Type} (m : List (String × α)) (k : String) (v : α) (q : String) :
    (∃ e, e ∈ setKey m k v ∧ e.1 = q) ↔ ((∃ e, e ∈ m ∧ e.1 = q) ∨ q = k) := by
  constructor
  · rintro ⟨e, he, hq⟩
    rcases mem_setKey he with h | h
    · exact Or.inl ⟨e, h, hq⟩
    · right
      rw [← hq, h]
  · rintro (⟨e, he, hq⟩ | rfl)
    · unfold setKey
      by_cases hany : (m.any (fun e => e.1 == k)) = true
      · rw [if_pos hany]
        refine ⟨if e.1 == k then (k, v) else e, List.mem_map.mpr ⟨e, he, rfl⟩, ?_⟩
        by_cases hek : (e.1 == k) = true
        · rw [if_pos hek]
          have : e.1 = k := by simpa using hek
          rw [← this, hq]
        · rw [if_neg hek]
          exact hq
      · rw [if_neg hany]
        exact ⟨e, List.mem_append_left _ he, hq⟩
    · unfold setKey
      by_cases hany : (m.any (fun e => e.1 == q)) = true
      · rw [if_pos hany]
        obtain ⟨e, he, hek⟩ := List.any_eq_true.mp hany
        have hek' : e.1 = q := by simpa using hek
        refine ⟨(q, v), List.mem_map.mpr ⟨e, he, ?_⟩, rfl⟩
        rw [if_pos (by simpa using hek')]
      · rw [if_neg hany]
        exact ⟨(q, v), List.mem_append_right _ (List.mem_singleton.mpr rfl), rfl⟩

theorem keyMem_iff {α : Type} (m : List (String × α)) (q : String) :
    keyMem m q = true ↔ ∃ e, e ∈ m ∧ e.1 = q := by
  simp [keyMem, List.any_eq_true]

theorem keyMem_buildMap (l : List Comment) (q : String) :
    keyMem (buildMap l) q = true ↔ ∃ c, c ∈ l ∧ c.id = q := by
  suffices h : ∀ (l : List Comment) (m0 : List (String × List Comment)),
      keyMem (l.foldl (fun m c => setKey m c.id []) m0) q = true ↔
        (keyMem m0 q = true ∨ ∃ c, c ∈ l ∧ c.id = q) by
    rw [buildMap, h l []]
    simp [keyMem]
  intro l
  induction l with
  | nil => intro m0; simp
  | cons c l ih =>
    intro m0
    rw [List.foldl_cons, ih (setKey m0 c.id [])]
    rw [keyMem_iff, fst_mem_setKey, ← keyMem_iff]
    constructor
    · rintro ((h | h) | h)
      · exact Or.inl h
      · exact Or.inr ⟨c, List.mem_cons_self c l, h.symm⟩
      · obtain ⟨c', hc', hcq⟩ := h
        exact Or.inr ⟨c', List.mem_cons_of_mem _ hc', hcq⟩
    · rintro (h | ⟨c', hc', hcq⟩)
      · exact Or.inl (Or.inl h)
      · rcases List.mem_cons.mp hc' with rfl | h'
        · exact Or.inl (Or.inr hcq.symm)
        · exact Or.inr ⟨c', h', hcq⟩

theorem buildMap_val (l : List Comment) :
    ∀ (m0 : List (String × List Comment)), (∀ e, e ∈ m0 → e.2 = []) →
      ∀ e, e ∈ l.foldl (fun m c => setKey m c.id []) m0 → e.2 = [] := by
  induction l with
  | nil => intro m0 h0 e he; exact h0 e he
  | cons c l ih =>
    intro m0 h0 e he
    rw [List.foldl_cons] at he
    refine ih (setKey m0 c.id []) ?_ e he
    intro e' he'
    rcases mem_setKey he' with h | h
    · exact h0 e' h
    · rw [h]

theorem lookupKey_isSome {α : Type} (m : List (String × α)) (q : String) :
    (lookupKey m q).isSome = keyMem m q := by
  induction m with
  | nil => rfl
  | cons e t ih =>
    by_cases he : (e.1 == q) = true
    · simp [lookupKey, keyMem, List.find?_cons, he]
    · have he' : (e.1 == q) = false := by simpa using he
      rw [lookupKey_cons_ne he']
      simp only [keyMem, List.any_cons, he', Bool.false_or]
      exact ih

theorem lookupKey_buildMap (l : List Comment) (p : String)
    (h : keyMem (buildMap l) p = true) : lookupKey (buildMap l) p = some [] := by
  have hsome : (lookupKey (buildMap l) p).isSome = true := by
    rw [lookupKey_isSome, h]
  cases hfind : List.find? (fun e => e.1 == p) (buildMap l) with
  | none => simp [lookupKey, hfind] at hsome
  | some e =>
    have hmem : e ∈ buildMap l := List.mem_of_find?_eq_some hfind
    have hval : e.2 = [] := buildMap_val l [] (by simp) e hmem
    simp [lookupKey, hfind, hval]

theorem threadStep_none {st : List (String × List Comment) × List Comment} {c : Comment}
    (hp : c.parentId = none) : threadStep st c = (st.1, st.2 ++ [c]) := by
  unfold threadStep
  rw [hp]

theorem threadStep_some {st : List (String × List Comment) × List Comment} {c : Comment}
    {p : String} (hp : c.parentId = some p) :
    threadStep st c =
      if p != "" && keyMem st.1 p then (appendReply st.1 p c, st.2)
      else (st.1, st.2 ++ [c]) := by
  unfold threadStep
  rw [hp]

/-- The root test applied during pass 2: a comment lands in the root list
exactly when its `parentId` is absent, the empty string, or not a key of the
comment map. -/
def rootPredB (m : List (String × List Comment)) (c : Comment) : Bool :=
  match c.parentId with
  | some p => !(p != "" && keyMem m p)
  | none => true

theorem rootPredB_appendReply (m : List (String × List Comment)) (p : String) (c0 c : Comment) :
    rootPredB (appendReply m p c0) c = rootPredB m c := by
  unfold rootPredB
  cases hq : c.parentId with
  | none => rfl
  | some q =>
    show (!(q != "" && keyMem (appendReply m p c0) q)) = (!(q != "" && keyMem m q))
    rw [keyMem_appendReply]

theorem foldl_threadStep_roots :
    ∀ (l : List Comment) (m : List (String × List Comment)) (r : List Comment),
      (l.foldl threadStep (m, r)).2 = r ++ l.filter (fun c => rootPredB m c) := by
  intro l
  induction l with
  | nil => intro m r; simp
  | cons c l ih =>
    intro m r
    rw [List.foldl_cons]
    cases hp : c.parentId with
    | none =>
      rw [threadStep_none hp]
      have hr : rootPredB m c = true := by simp [rootPredB, hp]
      calc (List.foldl threadStep ((m, r).1, (m, r).2 ++ [c]) l).2
          = (r ++ [c]) ++ l.filter (fun x => rootPredB m x) := ih m (r ++ [c])
        _ = r ++ List.filter (fun x => rootPredB m x) (c :: l) := by
            rw [List.filter_cons, if_pos hr]
            simp
    | some p =>
      by_cases hg : (p != "" && keyMem m p) = true
      · rw [threadStep_some hp, if_pos hg]
        have hr : rootPredB m c = false := by simp [rootPredB, hp, hg]
        calc (List.foldl threadStep (appendReply (m, r).1 p c, (m, r).2) l).2
            = r ++ l.filter (fun x => rootPredB (appendReply m p c) x) :=
              ih (appendReply m p c) r
          _ = r ++ l.filter (fun x => rootPredB m x) := by
              rw [List.filter_congr (fun x _ => rootPredB_appendReply m p c x)]
          _ = r ++ List.filter (fun x => rootPredB m x) (c :: l) := by
              rw [List.filter_cons, if_neg (by simp [hr])]
      · rw [threadStep_some hp, if_neg hg]
        have hr : rootPredB m c = true := by
          have h0 : (p != "" && keyMem m p) = false := by simpa using hg
          simp [rootPredB, hp, h0]
        calc (List.foldl threadStep ((m, r).1, (m, r).2 ++ [c]) l).2
            = (r ++ [c]) ++ l.filter (fun x => rootPredB m x) := ih m (r ++ [c])
          _ = r ++ List.filter (fun x => rootPredB m x) (c :: l) := by
              rw [List.filter_cons, if_pos hr]
              simp

theorem foldl_threadStep_replies :
    ∀ (l : List Comment) (m : List (String × List Comment)) (r : List Comment)
      (p : String) (v : List Comment), keyMem m p = true → lookupKey m p = some v →
      lookupKey ((l.foldl threadStep (m, r)).1) p =
        some (v ++ l.filter (fun c => c.parentId == some p && p != "")) := by
  intro l
  induction l with
  | nil => intro m r p v _ hv; simpa using hv
  | cons c l ih =>
    intro m r p v hk hv
    rw [List.foldl_cons]
    cases hp : c.parentId with
    | none =>
      rw [threadStep_none hp]
      have hpred : (c.parentId == some p && p != "") = false := by
        simp [hp]
      calc lookupKey ((List.foldl threadStep ((m, r).1, (m, r).2 ++ [c]) l).1) p
          = some (v ++ l.filter (fun x => x.parentId == some p && p != "")) :=
            ih m (r ++ [c]) p v hk hv
        _ = some (v ++ List.filter (fun x => x.parentId == some p && p != "") (c :: l)) := by
            rw [List.filter_cons, if_neg (by simp [hpred])]
    | some q =>
      by_cases hg : (q != "" && keyMem m q) = true
      · rw [threadStep_some hp, if_pos hg]
        by_cases hqp : q = p
        · subst hqp
          have hq0 : (q != "") = true := (Bool.and_eq_true _ _ |>.mp hg).1
          have hpred : (c.parentId == some q && q != "") = true := by
            simp [hp, hq0]
          have hk' : keyMem (appendReply m q c) q = true := by
            rw [keyMem_appendReply]; exact hk
          have hv' : lookupKey (appendReply m q c) q = some (v ++ [c]) :=
            lookupKey_appendReply_self m q c v hv
          calc lookupKey ((List.foldl threadStep (appendReply (m, r).1 q c, (m, r).2) l).1) q
              = some ((v ++ [c]) ++ l.filter (fun x => x.parentId == some q && q != "")) :=
                ih (appendReply m q c) r q (v ++ [c]) hk' hv'
            _ = some (v ++ List.filter (fun x => x.parentId == some q && q != "") (c :: l)) := by
                rw [List.filter_cons, if_pos hpred, List.append_assoc]
                rfl
        · have hpred : (c.parentId == some p && p != "") = false := by
            simp [hp, hqp]
          have hk' : keyMem (appendReply m q c) p = true := by
            rw [keyMem_appendReply]; exact hk
          have hv' : lookupKey (appendReply m q c) p = some v := by
            rw [lookupKey_appendReply_ne m q c p (fun h => hqp h.symm)]
            exact hv
          calc lookupKey ((List.foldl threadStep (appendReply (m, r).1 q c, (m, r).2) l).1) p
              = some (v ++ l.filter (fun x => x.parentId == some p && p != "")) :=
                ih (appendReply m q c) r p v hk' hv'
            _ = some (v ++ List.filter (fun x => x.parentId == some p && p != "") (c :: l)) := by
                rw [List.filter_cons, if_neg (by simp [hpred])]
      · rw [threadStep_some hp, if_neg hg]
        have hpred : (c.parentId == some p && p != "") = false := by
          by_cases hqp : q = p
          · subst hqp
            cases hq0 : (q != "") with
            | true => exact absurd (by rw [hq0, hk]; rfl : (q != "" && keyMem m q) = true) hg
            | false => simp [hp, hq0]
          · simp [hp, hqp]
        calc lookupKey ((List.foldl threadStep ((m, r).1, (m, r).2 ++ [c]) l).1) p
            = some (v ++ l.filter (fun x => x.parentId == some p && p != "")) :=
              ih m (r ++ [c]) p v hk hv
          _ = some (v ++ List.filter (fun x => x.parentId == some p && p != "") (c :: l)) := by
              rw [List.filter_cons, if_neg (by simp [hpred])]

instance : IsTotal Comment rootOrder :=
  ⟨fun a b => Int.le_total b.date a.date⟩

instance : IsTrans Comment rootOrder :=
  ⟨fun _ _ _ h1 h2 => le_trans h2 h1⟩

/-- C3: the thread builder files each comment whose `parentId` matches a
listed id into that parent's reply list (in input order) and makes every
other comment a root; the returned roots are sorted by creation timestamp
descending; on the synthetic A, B(parent A), C(parent B), D scenario the
result is roots `[D, A]` with reply lists A↦[B], B↦[C]. -/
theorem c3_thread_builder (movieComments : List Comment)
    (hWF : ∀ c, c ∈ movieComments → c.parentId ≠ some "") :
    (∀ p, (movieComments.any (fun c => c.id == p)) = true →
      lookupKey (buildThread movieComments).1 p =
        some (movieComments.filter (fun c => c.parentId == some p))) ∧
    (buildThread movieComments).2 = movieComments.filter
      (fun c => match c.parentId with
        | some p => !(movieComments.any (fun c2 => c2.id == p))
        | none => true) ∧
    List.Sorted rootOrder (sortRootsDesc (buildThread movieComments).2) ∧
    (sortRootsDesc (buildThread movieComments).2).Perm (buildThread movieComments).2 ∧
    (getComments threadDb "m2").comments = [cD, cA] ∧
    lookupKey (getComments threadDb "m2").replyLists "A" = some [cB] ∧
    lookupKey (getComments threadDb "m2").replyLists "B" = some [cC] ∧
    lookupKey (getComments threadDb "m2").replyLists "C" = some [] ∧
    lookupKey (getComments threadDb "m2").replyLists "D" = some [] := by
  refine ⟨?_, ?_, List.sorted_insertionSort rootOrder _, List.perm_insertionSort rootOrder _,
    by decide, by decide, by decide, by decide, by decide⟩
  · intro p hmem
    have hk : keyMem (buildMap movieComments) p = true := by
      rw [keyMem_buildMap]
      obtain ⟨c, hc, hcp⟩ := List.any_eq_true.mp hmem
      exact ⟨c, hc, by simpa using hcp⟩
    have hv : lookupKey (buildMap movieComments) p = some [] := lookupKey_buildMap _ _ hk
    have hrep := foldl_threadStep_replies movieComments (buildMap movieComments) [] p [] hk hv
    rw [buildThread, hrep, List.nil_append]
    congr 1
    apply List.filter_congr
    intro x hx
    by_cases hxp : x.parentId = some p
    · have hpne : p ≠ "" := by
        intro h0
        rw [h0] at hxp
        exact hWF x hx hxp
      simp [hxp, hpne]
    · simp [hxp]
  · have hroots := foldl_threadStep_roots movieComments (buildMap movieComments) []
    rw [buildThread, hroots, List.nil_append]
    apply List.filter_congr
    intro x hx
    unfold rootPredB
    cases hxp : x.parentId with
    | none => rfl
    | some q =>
      show (!(q != "" && keyMem (buildMap movieComments) q)) =
        !(movieComments.any fun c2 => c2.id == q)
      have hqne : q ≠ "" := by
        intro h0
        rw [h0] at hxp
        exact hWF x hx hxp
      have hq0 : (q != "") = true := by simpa using hqne
      rw [hq0, Bool.true_and]
      congr 1
      cases hkm : keyMem (buildMap movieComments) q with
      | true =>
        obtain ⟨c2, hc2, hc2q⟩ := (keyMem_buildMap _ _).mp hkm
        exact (List.any_eq_true.mpr ⟨c2, hc2, by simpa using hc2q⟩).symm
      | false =>
        cases hany : movieComments.any (fun c2 => c2.id == q) with
        | false => rfl
        | true =>
          exfalso
          obtain ⟨c2, hc2, hc2q⟩ := List.any_eq_true.mp hany
          have hk2 : keyMem (buildMap movieComments) q = true :=
            (keyMem_buildMap _ _).mpr ⟨c2, hc2, by simpa using hc2q⟩
          rw [hk2] at hkm
          simp at hkm

/-- Witness for C3: the synthetic scenario renders roots `[D, A]` with
reply lists A↦[B] and B↦[C]. -/
theorem c3_witness :
    (getComments threadDb "m2").comments = [cD, cA] ∧
    lookupKey (getComments threadDb "m2").replyLists "A" = some [cB] ∧
    lookupKey (getComments threadDb "m2").replyLists "B" = some [cC] := by
  have h := c3_thread_builder [cA, cB, cC, cD] (by decide)
  exact ⟨h.2.2.2.2.1, h.2.2.2.2.2.1, h.2.2.2.2.2.2.1⟩

/-- Witness for C6: a structurally valid session whose expiry 500 is before
the clock 1000 is rejected. -/
theorem c6_witness :
    Comments.validateSession
      (JsVal.obj [("token", JsVal.str "t"), ("user", JsVal.obj [("id", JsVal.str "u")]),
        ("expires", JsVal.num 500)]) 1000 = false :=
  (c6_session_validation
    (JsVal.obj [("token", JsVal.str "t"), ("user", JsVal.obj [("id", JsVal.str "u")]),
      ("expires", JsVal.num 500)]) 1000).2 500 rfl (by decide)
